/- Verification of the package compatibility resolution engine of dbt-autofix.

   Shallow embedding of the data model and operations of
   `dbt_autofix/package_upgrade.py`, `dbt_autofix/packages/dbt_package.py`,
   `dbt_autofix/packages/dbt_package_file.py` and
   `dbt_autofix/packages/dbt_package_version.py`.

   Python dicts are embedded as association lists (insertion ordered, keys
   unique), Python sets of package ids as lists, Optional values as Option.
   Console logging is side-effect free and is dropped.  Parts of the engine
   that the source tree does not contain (the FusionCompatibilityState enum,
   the manual_overrides module and several DbtPackageFile accessors) are
   modelled from the specification and carry a doc comment saying so. -/
import Mathlib

/-- An exact semantic version.  Modelled from the spec (section 3 and 4.1):
`dbt_common.semver.VersionSpecifier` is an external dependency whose source is
not part of this repository; per the spec it is an exact `major.minor.patch`
version with optional pre-release metadata, totally ordered with numeric
identifiers compared numerically and pre-release versions ordered below the
corresponding release. -/
structure Semver where
  major : Nat
  minor : Nat
  patch : Nat
  prerelease : Option String := none
deriving DecidableEq

/-- Key for the pre-release component of the ordering: releases sort above
pre-releases (the `Bool`, releases map to `true`), pre-release identifiers are
compared by their numeric character codes. -/
def prereleaseKey : Option String → Bool × List Nat
  | none => (true, [])
  | some s => (false, s.data.map Char.toNat)

theorem char_toNat_injective : Function.Injective Char.toNat := by
  intro a b h
  have hv : a.val = b.val := by
    have h' : a.val.toNat = b.val.toNat := h
    exact UInt32.toNat.inj h'
  exact Char.ext hv

theorem prereleaseKey_injective : Function.Injective prereleaseKey := by
  intro a b h
  cases a <;> cases b <;> simp [prereleaseKey] at h ⊢
  · exact congrArg String.mk (List.map_injective_iff.mpr char_toNat_injective h)

/-- Ordering key for `Semver`: numeric triple lexicographically, then the
pre-release key. -/
def Semver.orderKey (v : Semver) : Lex (Nat × Lex (Nat × Lex (Nat × Lex (Bool × List Nat)))) :=
  toLex (v.major, toLex (v.minor, toLex (v.patch, toLex (prereleaseKey v.prerelease))))

theorem Semver.orderKey_injective : Function.Injective Semver.orderKey := by
  intro a b h
  cases a with
  | mk am an ap apre =>
    cases b with
    | mk bm bn bp bpre =>
      simp only [orderKey, toLex_inj, Prod.mk.injEq] at h
      obtain ⟨h1, h2, h3, h4⟩ := h
      have := prereleaseKey_injective h4
      simp_all

instance : LinearOrder Semver := LinearOrder.lift' Semver.orderKey Semver.orderKey_injective

/-- Embeds `VersionSpecifier.to_version_string` (canonical string form of an
exact version, pre-release joined with a dash). -/
def Semver.to_version_string (v : Semver) : String :=
  toString v.major ++ "." ++ toString v.minor ++ "." ++ toString v.patch ++
    (match v.prerelease with
     | none => ""
     | some s => "-" ++ s)

/-- One bound of a version range: the bound version and whether the comparison
is inclusive (matcher greater-or-equal / less-or-equal) or strict. -/
structure VersionBound where
  version : Semver
  inclusive : Bool
deriving DecidableEq

/-- Modelled from the spec (section 3): `dbt_common.semver.VersionRange`, a pair
of optional bounds; a missing bound leaves that side unconstrained.  The field
named `end` in the source is called `stop` here because `end` is a Lean
keyword. -/
structure VersionRange where
  start : Option VersionBound := none
  stop : Option VersionBound := none
deriving DecidableEq

def satisfiesLowerBound (v : Semver) : Option VersionBound → Bool
  | none => true
  | some b => if b.inclusive then decide (b.version ≤ v) else decide (b.version < v)

def satisfiesUpperBound (v : Semver) : Option VersionBound → Bool
  | none => true
  | some b => if b.inclusive then decide (v ≤ b.version) else decide (v < b.version)

/-- Modelled from the spec (section 4.1): `dbt_common.semver.versions_compatible`
as called in the source with three arguments, an exact version and the two
bounds of a range — true iff the version lies within the interval, with
exclusive bounds obeyed strictly. -/
def versions_compatible (v : Semver) (start stop : Option VersionBound) : Bool :=
  satisfiesLowerBound v start && satisfiesUpperBound v stop

/-- Modelled from the spec (section 3): the `FusionCompatibilityState`
enumeration.  The source imports it from
`dbt_autofix.packages.dbt_package_version`, where its definition is absent from
the tree; the members below are the ones named by the spec and used by
`dbt_package.py`. -/
inductive FusionCompatibilityState where
  | EXPLICIT_ALLOW
  | EXPLICIT_DISALLOW
  | DBT_VERSION_RANGE_INCLUDES_2_0
  | DBT_VERSION_RANGE_EXCLUDES_2_0
  | NO_DBT_VERSION_RANGE
  | UNKNOWN
deriving DecidableEq

/-- The engine version every package must declare compatibility with
(`FUSION_COMPATIBLE_VERSION = "2.0.0"` in `dbt_package_version.py`). -/
def FUSION_COMPATIBLE_VERSION : Semver := ⟨2, 0, 0, none⟩

/-- One published version of a package (`DbtPackageVersion`).  The raw
`require_dbt_version_range` strings of the source are carried here already
parsed into an optional range: `none` embeds an empty raw list (no declared
range). -/
structure DbtPackageVersion where
  package_name : String
  package_version_str : String
  require_dbt_version : Option VersionRange := none
deriving DecidableEq

/-- Modelled from the spec (sections 3 and 4.4):
`DbtPackageVersion.get_fusion_compatibility_state`, called by
`dbt_package.py` but absent from `dbt_package_version.py` in the tree.  Per the
spec: a version with no self-declared engine-version range has no eligibility
data; otherwise the state says whether the declared range includes the Fusion
engine version 2.0.0. -/
def DbtPackageVersion.get_fusion_compatibility_state (pv : DbtPackageVersion) : FusionCompatibilityState :=
  match pv.require_dbt_version with
  | none => .NO_DBT_VERSION_RANGE
  | some r =>
    if versions_compatible FUSION_COMPATIBLE_VERSION r.start r.stop then
      .DBT_VERSION_RANGE_INCLUDES_2_0
    else
      .DBT_VERSION_RANGE_EXCLUDES_2_0

/-- Modelled from the spec (sections 3 and 9): the manual override sets
`EXPLICIT_ALLOW_ALL_VERSIONS` and `EXPLICIT_DISALLOW_ALL_VERSIONS` of the
`dbt_autofix.packages.manual_overrides` module, absent from the tree; per the
spec they are injected, immutable configuration keyed by package identity. -/
structure ManualOverrides where
  EXPLICIT_ALLOW_ALL_VERSIONS : List String := []
  EXPLICIT_DISALLOW_ALL_VERSIONS : List String := []
deriving DecidableEq

/-- Generic association-list lookup, embedding Python dict indexing. -/
def assocFind {β : Type} (l : List (String × β)) (k : String) : Option β :=
  (l.find? (fun e => e.1 == k)).map Prod.snd

/-- One declared package dependency (`DbtPackage` of
`dbt_autofix/packages/dbt_package.py`).  `project_config_version_range` is the
range the `__post_init__` of the source derives from the raw declared
specifier.  The source field `local` is called `isLocal` here because `local`
is a Lean keyword. -/
structure DbtPackage where
  package_name : String
  package_id : String
  project_config_version_range : VersionRange := {}
  package_versions : List (String × DbtPackageVersion) := []
  installed_package_version : Option Semver := none
  latest_package_version : Option Semver := none
  git_url : Option String := none
  opt_in_prerelease : Bool := false
  isLocal : Bool := false
  tarball : Bool := false
  git : Bool := false
  min_upgradeable_version : Option String := none
  max_upgradeable_version : Option String := none
  lowest_fusion_compatible_version : Option Semver := none
  fusion_compatible_versions : Option (List Semver) := none
  fusion_incompatible_versions : Option (List Semver) := none
  unknown_compatibility_versions : Option (List Semver) := none
deriving DecidableEq

def DbtPackage.is_public_package (p : DbtPackage) : Bool :=
  !(p.git || p.tarball || p.isLocal)

def DbtPackage.is_installed_version_fusion_compatible (ov : ManualOverrides) (p : DbtPackage) : FusionCompatibilityState :=
  if p.package_id ∈ ov.EXPLICIT_DISALLOW_ALL_VERSIONS then .EXPLICIT_DISALLOW
  else if p.package_id ∈ ov.EXPLICIT_ALLOW_ALL_VERSIONS then .EXPLICIT_ALLOW
  else
    match p.installed_package_version with
    | none => .UNKNOWN
    | some v =>
      match assocFind p.package_versions v.to_version_string with
      | none => .UNKNOWN
      | some pv => pv.get_fusion_compatibility_state

/-- The relation used to sort version lists descending, as
`sorted(versions, reverse=True)` does in the source. -/
def versionGE (a b : Semver) : Prop := b ≤ a

instance : DecidableRel versionGE := fun a b => inferInstanceAs (Decidable (b ≤ a))

instance : IsTotal Semver versionGE := ⟨fun a b => (le_total b a).imp id id⟩

instance : IsTrans Semver versionGE := ⟨fun _ _ _ hab hbc => le_trans hbc hab⟩

/-- Embeds `sorted(l, reverse=True)` on lists of versions. -/
def sortVersionsDescending (l : List Semver) : List Semver :=
  l.insertionSort versionGE

def DbtPackage.find_fusion_compatible_versions_in_requested_range (p : DbtPackage) : List Semver :=
  match p.fusion_compatible_versions with
  | none => []
  | some vs =>
    if vs.length = 0 then []
    else
      sortVersionsDescending (vs.filter (fun v =>
        versions_compatible v p.project_config_version_range.start p.project_config_version_range.stop))

def DbtPackage.find_fusion_compatible_versions_outside_requested_range (p : DbtPackage) : List Semver :=
  match p.fusion_compatible_versions with
  | none => []
  | some vs =>
    if vs.length = 0 then []
    else
      sortVersionsDescending (vs.filter (fun v =>
        !(versions_compatible v p.project_config_version_range.start p.project_config_version_range.stop)))

def DbtPackage.get_installed_package_version (p : DbtPackage) : String :=
  match p.installed_package_version with
  | some v => v.to_version_string
  | none => "unknown"

def optListHasElems {α : Type} : Option (List α) → Bool
  | none => false
  | some l => decide (0 < l.length)

def DbtPackage.get_fusion_compatibility_state (ov : ManualOverrides) (p : DbtPackage) : FusionCompatibilityState :=
  if p.is_public_package = false then .UNKNOWN
  else if p.package_id ∈ ov.EXPLICIT_DISALLOW_ALL_VERSIONS then .EXPLICIT_DISALLOW
  else if p.package_id ∈ ov.EXPLICIT_ALLOW_ALL_VERSIONS then .EXPLICIT_ALLOW
  else if p.is_installed_version_fusion_compatible ov = .DBT_VERSION_RANGE_INCLUDES_2_0
       ∨ p.is_installed_version_fusion_compatible ov = .EXPLICIT_ALLOW then
    p.is_installed_version_fusion_compatible ov
  else if optListHasElems p.fusion_compatible_versions then .DBT_VERSION_RANGE_INCLUDES_2_0
  else if optListHasElems p.fusion_incompatible_versions && !optListHasElems p.unknown_compatibility_versions then
    .DBT_VERSION_RANGE_EXCLUDES_2_0
  else .NO_DBT_VERSION_RANGE

/-- The project manifest (`DbtPackageFile`).  The raw parsed YAML field
`yml_dependencies` is out of scope and dropped; `package_dependencies` is the
dict indexed by package id, embedded as an insertion-ordered association
list. -/
structure DbtPackageFile where
  package_file_name : String
  file_path : Option String := none
  package_dependencies : List (String × DbtPackage) := []
deriving DecidableEq

def DbtPackageFile.add_package_dependency (f : DbtPackageFile) (package_id : String) (package : DbtPackage) : DbtPackageFile :=
  if package_id ∈ f.package_dependencies.map Prod.fst then f
  else { f with package_dependencies := f.package_dependencies ++ [(package_id, package)] }

/-- The loop body of `get_reverse_lookup_by_package_name`: on a duplicate
package name the source only logs and leaves the table unchanged, otherwise it
binds the name to the package id. -/
def reverseLookupStep (lookup : List (String × String)) (pr : String × DbtPackage) : List (String × String) :=
  if pr.2.package_name ∈ lookup.map Prod.fst then lookup
  else lookup ++ [(pr.2.package_name, pr.1)]

def DbtPackageFile.get_reverse_lookup_by_package_name (f : DbtPackageFile) : List (String × String) :=
  f.package_dependencies.foldl reverseLookupStep []

/-- Modelled from the spec (section 4.5 step 1):
`DbtPackageFile.get_private_package_names`, called by the decision engine but
absent from `dbt_package_file.py` in the tree — the ids of the dependencies
declared via a private source (local path, git, tarball). -/
def DbtPackageFile.get_private_package_names (f : DbtPackageFile) : List String :=
  (f.package_dependencies.filter (fun pr => !pr.2.is_public_package)).map Prod.fst

/-- Modelled from the spec (section 4.5 step 2, per section 4.4):
`DbtPackageFile.get_installed_version_fusion_compatible`, absent from the tree
— the ids of the dependencies whose installed version already classifies as
Fusion-compatible (explicit allow, or a self-declared range including 2.0.0). -/
def DbtPackageFile.get_installed_version_fusion_compatible (ov : ManualOverrides) (f : DbtPackageFile) : List String :=
  (f.package_dependencies.filter (fun pr =>
    let st := pr.2.is_installed_version_fusion_compatible ov
    decide (st = .EXPLICIT_ALLOW ∨ st = .DBT_VERSION_RANGE_INCLUDES_2_0))).map Prod.fst

/-- Modelled from the spec (section 4.5 steps 3 and 4):
`DbtPackageFile.get_package_fusion_compatibility`, absent from the tree — the
dict from classifier state to package ids, embedded as a function giving the
bucket of each state. -/
def DbtPackageFile.get_package_fusion_compatibility (ov : ManualOverrides) (f : DbtPackageFile) (st : FusionCompatibilityState) : List String :=
  (f.package_dependencies.filter (fun pr => decide (pr.2.get_fusion_compatibility_state ov = st))).map Prod.fst

/-- The classification reason codes (`PackageVersionUpgradeType`).  The string
payloads of the Python enum are user-facing messages and are dropped. -/
inductive PackageVersionUpgradeType where
  | NO_UPGRADE_REQUIRED
  | UPGRADE_AVAILABLE
  | PUBLIC_PACKAGE_MISSING_FUSION_ELIGIBILITY
  | PUBLIC_PACKAGE_NOT_COMPATIBLE_WITH_FUSION
  | PUBLIC_PACKAGE_FUSION_COMPATIBLE_VERSION_EXCEEDS_PROJECT_CONFIG
  | PRIVATE_PACKAGE_MISSING_REQUIRE_DBT_VERSION
  | UNKNOWN
deriving DecidableEq

/-- The terminal decision record (`PackageVersionUpgradeResult`). -/
structure PackageVersionUpgradeResult where
  id : String
  public_package : Bool
  installed_version : String
  version_reason : PackageVersionUpgradeType
  upgraded_version : Option String := none
  compatible_version : Option String := none
deriving DecidableEq

def PackageVersionUpgradeResult.package_should_upgrade (r : PackageVersionUpgradeResult) : Bool :=
  decide (r.version_reason = .UPGRADE_AVAILABLE)

/-- Python truthiness of an optional string: `None` and the empty string are
falsy. -/
def strOptionTruthy : Option String → Bool
  | none => false
  | some s => decide (s ≠ "")

def PackageVersionUpgradeResult.package_final_version (r : PackageVersionUpgradeResult) : String :=
  if r.package_should_upgrade && strOptionTruthy r.upgraded_version then
    r.upgraded_version.getD ""
  else
    r.installed_version

/-- Working state of `check_for_package_upgrades`: the `packages_to_check` set
(a list of dict keys, which are unique) and the accumulated result list. -/
structure UpgradeCheckState where
  packagesToCheck : List String
  results : List PackageVersionUpgradeResult
deriving DecidableEq

/-- The private-package phase body of `check_for_package_upgrades` (one loop
iteration). -/
def privatePackageStep (f : DbtPackageFile) (st : UpgradeCheckState) (pid : String) : UpgradeCheckState :=
  match assocFind f.package_dependencies pid with
  | none => st
  | some p =>
    { packagesToCheck := st.packagesToCheck.erase pid,
      results := st.results ++
        [{ id := pid, public_package := false, installed_version := p.get_installed_package_version,
           version_reason := .PRIVATE_PACKAGE_MISSING_REQUIRE_DBT_VERSION }] }

/-- Shared body of the already-compatible phase and the two bulk phases of
`check_for_package_upgrades`: guarded by membership in `packages_to_check`,
emits a public-package result with the given reason and retires the id. -/
def guardedReasonStep (f : DbtPackageFile) (reason : PackageVersionUpgradeType) (st : UpgradeCheckState) (pid : String) : UpgradeCheckState :=
  if pid ∈ st.packagesToCheck then
    match assocFind f.package_dependencies pid with
    | none => st
    | some p =>
      { packagesToCheck := st.packagesToCheck.erase pid,
        results := st.results ++
          [{ id := pid, public_package := true, installed_version := p.get_installed_package_version,
             version_reason := reason }] }
  else st

/-- The per-version phase body of `check_for_package_upgrades` (the loop over
all dependencies checking in-range and out-of-range candidates). -/
def perVersionStep (st : UpgradeCheckState) (pr : String × DbtPackage) : UpgradeCheckState :=
  if pr.1 ∈ st.packagesToCheck then
    match pr.2.find_fusion_compatible_versions_in_requested_range with
    | v :: _ =>
      { packagesToCheck := st.packagesToCheck.erase pr.1,
        results := st.results ++
          [{ id := pr.1, public_package := true, installed_version := pr.2.get_installed_package_version,
             version_reason := .UPGRADE_AVAILABLE, compatible_version := some v.to_version_string }] }
    | [] =>
      match pr.2.find_fusion_compatible_versions_outside_requested_range with
      | v :: _ =>
        { packagesToCheck := st.packagesToCheck.erase pr.1,
          results := st.results ++
            [{ id := pr.1, public_package := true, installed_version := pr.2.get_installed_package_version,
               version_reason := .PUBLIC_PACKAGE_FUSION_COMPATIBLE_VERSION_EXCEEDS_PROJECT_CONFIG,
               compatible_version := some v.to_version_string }] }
      | [] => st
  else st

/-- The fallback phase body of `check_for_package_upgrades` (one result per id
left in `packages_to_check`). -/
def fallbackStep (f : DbtPackageFile) (results : List PackageVersionUpgradeResult) (pid : String) : List PackageVersionUpgradeResult :=
  match assocFind f.package_dependencies pid with
  | none => results
  | some p =>
    results ++
      [{ id := pid, public_package := p.is_public_package, installed_version := p.get_installed_package_version,
         version_reason := .PUBLIC_PACKAGE_MISSING_FUSION_ELIGIBILITY }]

/-- The dict keys of `package_dependencies`: the declared package identities. -/
def depKeys (f : DbtPackageFile) : List String :=
  f.package_dependencies.map Prod.fst

/-- State of `check_for_package_upgrades` on entry: every declared package id
remains to be checked, no results yet. -/
def checkStage0 (f : DbtPackageFile) : UpgradeCheckState :=
  ⟨depKeys f, []⟩

/-- State after the private-package phase of `check_for_package_upgrades`. -/
def checkStage1 (f : DbtPackageFile) : UpgradeCheckState :=
  (f.get_private_package_names).foldl (privatePackageStep f) (checkStage0 f)

/-- State after the installed-version-already-compatible phase. -/
def checkStage2 (ov : ManualOverrides) (f : DbtPackageFile) : UpgradeCheckState :=
  (f.get_installed_version_fusion_compatible ov).foldl
    (guardedReasonStep f .NO_UPGRADE_REQUIRED) (checkStage1 f)

/-- State after the bulk all-public-versions-incompatible phase. -/
def checkStage3 (ov : ManualOverrides) (f : DbtPackageFile) : UpgradeCheckState :=
  (f.get_package_fusion_compatibility ov .DBT_VERSION_RANGE_EXCLUDES_2_0).foldl
    (guardedReasonStep f .PUBLIC_PACKAGE_NOT_COMPATIBLE_WITH_FUSION) (checkStage2 ov f)

/-- State after the bulk no-version-defines-a-dbt-range phase. -/
def checkStage4 (ov : ManualOverrides) (f : DbtPackageFile) : UpgradeCheckState :=
  (f.get_package_fusion_compatibility ov .NO_DBT_VERSION_RANGE).foldl
    (guardedReasonStep f .PUBLIC_PACKAGE_MISSING_FUSION_ELIGIBILITY) (checkStage3 ov f)

/-- State after the per-version candidate-search phase. -/
def checkStage5 (ov : ManualOverrides) (f : DbtPackageFile) : UpgradeCheckState :=
  f.package_dependencies.foldl perVersionStep (checkStage4 ov f)

/-- `check_for_package_upgrades` of `dbt_autofix/package_upgrade.py`: the
upgrade decision engine.  Phases in source order: private packages, installed
version already compatible, bulk all-versions-incompatible, bulk
no-eligibility-data, early exit when every package is accounted for, per-version
candidate search, and the fallback for anything left. -/
def check_for_package_upgrades (ov : ManualOverrides) (f : DbtPackageFile) : List PackageVersionUpgradeResult :=
  if (checkStage4 ov f).packagesToCheck.length = 0 then (checkStage4 ov f).results
  else if 0 < (checkStage5 ov f).packagesToCheck.length then
    (checkStage5 ov f).packagesToCheck.foldl (fallbackStep f) (checkStage5 ov f).results
  else (checkStage5 ov f).results

/-- Generic invariant preservation along a left fold. -/
theorem foldl_preserve {α β : Type} {P : β → Prop} :
    ∀ (l : List α) (g : β → α → β) (b : β),
      (∀ b' x, x ∈ l → P b' → P (g b' x)) → P b → P (l.foldl g b) := by
  intro l
  induction l with
  | nil => intro g b _ hb; simpa using hb
  | cons x xs ih =>
    intro g b h hb
    simp only [List.foldl_cons]
    exact ih g (g b x) (fun b' y hy => h b' y (List.mem_cons_of_mem _ hy))
      (h b x (List.mem_cons_self _ _) hb)

theorem assocFind_nil {β : Type} (n : String) : assocFind ([] : List (String × β)) n = none := rfl

theorem assocFind_cons {β : Type} (e : String × β) (l : List (String × β)) (n : String) :
    assocFind (e :: l) n = if e.1 == n then some e.2 else assocFind l n := by
  simp only [assocFind, List.find?_cons]
  by_cases h : (e.1 == n) = true <;> simp [h]

theorem assocFind_append {β : Type} (l1 l2 : List (String × β)) (n : String) :
    assocFind (l1 ++ l2) n = (assocFind l1 n).or (assocFind l2 n) := by
  unfold assocFind
  rw [List.find?_append]
  cases List.find? (fun e => e.1 == n) l1 <;> simp

theorem assocFind_of_mem_keys {β : Type} : ∀ (l : List (String × β)) (k : String),
    k ∈ l.map Prod.fst → ∃ v, assocFind l k = some v := by
  intro l
  induction l with
  | nil => simp
  | cons e t ih =>
    intro k hk
    rw [assocFind_cons]
    by_cases h : (e.1 == k) = true
    · exact ⟨e.2, by rw [if_pos h]⟩
    · have hk' : k ∈ t.map Prod.fst := by
        simp only [List.map_cons, List.mem_cons] at hk
        rcases hk with h1 | h2
        · exact absurd (by simp [h1]) h
        · exact h2
      rw [if_neg h]
      exact ih k hk'

/-- In an association list with unique keys, a key determines its value. -/
theorem nodup_keys_assoc_unique {β : Type} : ∀ (l : List (String × β)) (k : String) (a b : β),
    (l.map Prod.fst).Nodup → (k, a) ∈ l → (k, b) ∈ l → a = b := by
  intro l
  induction l with
  | nil => simp
  | cons e t ih =>
    intro k a b hnd ha hb
    simp only [List.map_cons, List.nodup_cons] at hnd
    rcases List.mem_cons.mp ha with h1 | h1
    · rcases List.mem_cons.mp hb with h2 | h2
      · have := h1.trans h2.symm
        simpa using this
      · exfalso
        have hk : (k, b).1 ∈ t.map Prod.fst := List.mem_map_of_mem Prod.fst h2
        rw [← h1] at hnd
        exact hnd.1 hk
    · rcases List.mem_cons.mp hb with h2 | h2
      · exfalso
        have hk : (k, a).1 ∈ t.map Prod.fst := List.mem_map_of_mem Prod.fst h1
        rw [← h2] at hnd
        exact hnd.1 hk
      · exact ih k a b hnd.2 h1 h2

theorem sortVersionsDescending_perm (l : List Semver) :
    List.Perm (sortVersionsDescending l) l :=
  List.perm_insertionSort versionGE l

theorem sortVersionsDescending_sorted (l : List Semver) :
    (sortVersionsDescending l).Pairwise versionGE :=
  List.sorted_insertionSort versionGE l

theorem sortVersionsDescending_head_max (l : List Semver) (w : Semver) (t : List Semver)
    (h : sortVersionsDescending l = w :: t) : w ∈ l ∧ ∀ v ∈ l, v ≤ w := by
  have hperm := sortVersionsDescending_perm l
  rw [h] at hperm
  constructor
  · exact hperm.mem_iff.mp (List.mem_cons_self _ _)
  · intro v hv
    have hv' : v ∈ w :: t := hperm.mem_iff.mpr hv
    rcases List.mem_cons.mp hv' with h1 | h1
    · exact le_of_eq h1
    · have hs := sortVersionsDescending_sorted l
      rw [h] at hs
      exact (List.pairwise_cons.mp hs).1 v h1

theorem sortVersionsDescending_strict (l : List Semver) (h : l.Nodup) :
    (sortVersionsDescending l).Pairwise (fun a b => b < a) := by
  have hs := sortVersionsDescending_sorted l
  have hn : (sortVersionsDescending l).Nodup := ((sortVersionsDescending_perm l).nodup_iff).mpr h
  exact (hs.and hn).imp (fun hab => lt_of_le_of_ne hab.1 hab.2.symm)

/-- The Fusion-compatible versions that satisfy the project's declared range
(before sorting): the filter inside
`find_fusion_compatible_versions_in_requested_range`. -/
def inRangeCandidates (p : DbtPackage) : List Semver :=
  (p.fusion_compatible_versions.getD []).filter (fun v =>
    versions_compatible v p.project_config_version_range.start p.project_config_version_range.stop)

/-- The Fusion-compatible versions outside the declared range (before
sorting). -/
def outOfRangeCandidates (p : DbtPackage) : List Semver :=
  (p.fusion_compatible_versions.getD []).filter (fun v =>
    !(versions_compatible v p.project_config_version_range.start p.project_config_version_range.stop))

theorem find_in_range_eq_sort (p : DbtPackage) :
    p.find_fusion_compatible_versions_in_requested_range = sortVersionsDescending (inRangeCandidates p) := by
  unfold DbtPackage.find_fusion_compatible_versions_in_requested_range inRangeCandidates
  cases h : p.fusion_compatible_versions with
  | none => rfl
  | some vs =>
    by_cases hl : vs.length = 0
    · have hv : vs = [] := List.length_eq_zero.mp hl
      subst hv
      rfl
    · simp [hl]

theorem find_out_range_eq_sort (p : DbtPackage) :
    p.find_fusion_compatible_versions_outside_requested_range = sortVersionsDescending (outOfRangeCandidates p) := by
  unfold DbtPackage.find_fusion_compatible_versions_outside_requested_range outOfRangeCandidates
  cases h : p.fusion_compatible_versions with
  | none => rfl
  | some vs =>
    by_cases hl : vs.length = 0
    · have hv : vs = [] := List.length_eq_zero.mp hl
      subst hv
      rfl
    · simp [hl]

/-- The invariant of the decision engine: the ids already decided plus the ids
still to check are a permutation of the declared ids, and the ids still to
check are declared. -/
def checkInvariant (keys : List String) (st : UpgradeCheckState) : Prop :=
  List.Perm (st.results.map (fun r => r.id) ++ st.packagesToCheck) keys ∧
    st.packagesToCheck ⊆ keys

theorem checkInvariant_move (keys : List String) (st : UpgradeCheckState)
    (pid : String) (r : PackageVersionUpgradeResult) (hid : r.id = pid)
    (hmem : pid ∈ st.packagesToCheck) (h : checkInvariant keys st) :
    checkInvariant keys ⟨st.packagesToCheck.erase pid, st.results ++ [r]⟩ := by
  constructor
  · have h1 : List.Perm st.packagesToCheck (pid :: st.packagesToCheck.erase pid) :=
      List.perm_cons_erase hmem
    have e1 : (st.results ++ [r]).map (fun x => x.id) ++ st.packagesToCheck.erase pid
        = st.results.map (fun x => x.id) ++ (pid :: st.packagesToCheck.erase pid) := by
      simp [hid]
    rw [e1]
    exact (List.Perm.append_left _ h1.symm).trans h.1
  · intro x hx
    exact h.2 (List.erase_subset _ _ hx)

theorem checkInvariant_guardedReasonStep (f : DbtPackageFile) (reason : PackageVersionUpgradeType)
    (keys : List String) (st : UpgradeCheckState) (pid : String)
    (h : checkInvariant keys st) : checkInvariant keys (guardedReasonStep f reason st pid) := by
  unfold guardedReasonStep
  by_cases hmem : pid ∈ st.packagesToCheck
  · rw [if_pos hmem]
    cases hlk : assocFind f.package_dependencies pid with
    | none => exact h
    | some p => exact checkInvariant_move keys st pid _ rfl hmem h
  · rw [if_neg hmem]; exact h

theorem checkInvariant_perVersionStep (keys : List String) (st : UpgradeCheckState)
    (pr : String × DbtPackage) (h : checkInvariant keys st) :
    checkInvariant keys (perVersionStep st pr) := by
  unfold perVersionStep
  by_cases hmem : pr.1 ∈ st.packagesToCheck
  · rw [if_pos hmem]
    cases hin : pr.2.find_fusion_compatible_versions_in_requested_range with
    | cons v t => exact checkInvariant_move keys st pr.1 _ rfl hmem h
    | nil =>
      cases hout : pr.2.find_fusion_compatible_versions_outside_requested_range with
      | cons v t => exact checkInvariant_move keys st pr.1 _ rfl hmem h
      | nil => exact h
  · rw [if_neg hmem]; exact h

theorem checkInvariant_privateFold (f : DbtPackageFile) (keys : List String) :
    ∀ (l : List String) (st : UpgradeCheckState), l.Nodup →
      (∀ x ∈ l, x ∈ st.packagesToCheck) → checkInvariant keys st →
      checkInvariant keys (l.foldl (privatePackageStep f) st) := by
  intro l
  induction l with
  | nil => intro st _ _ h; exact h
  | cons x xs ih =>
    intro st hnd hsub h
    simp only [List.foldl_cons]
    have hx : x ∈ st.packagesToCheck := hsub x (List.mem_cons_self _ _)
    have hstep : checkInvariant keys (privatePackageStep f st x) := by
      unfold privatePackageStep
      cases hlk : assocFind f.package_dependencies x with
      | none => exact h
      | some p => exact checkInvariant_move keys st x _ rfl hx h
    apply ih (privatePackageStep f st x) (List.Nodup.of_cons hnd) ?_ hstep
    intro y hy
    have hyne : y ≠ x := by
      intro he
      subst he
      exact (List.nodup_cons.mp hnd).1 hy
    have hy' : y ∈ st.packagesToCheck := hsub y (List.mem_cons_of_mem _ hy)
    unfold privatePackageStep
    cases hlk : assocFind f.package_dependencies x with
    | none => exact hy'
    | some p => exact (List.mem_erase_of_ne hyne).mpr hy'

theorem get_private_package_names_sublist (f : DbtPackageFile) :
    (f.get_private_package_names).Sublist (depKeys f) := by
  unfold DbtPackageFile.get_private_package_names depKeys
  exact (List.filter_sublist _).map Prod.fst

theorem checkInvariant_stage4 (ov : ManualOverrides) (f : DbtPackageFile)
    (hnd : (depKeys f).Nodup) : checkInvariant (depKeys f) (checkStage4 ov f) := by
  have inv0 : checkInvariant (depKeys f) (checkStage0 f) :=
    ⟨by simp [checkStage0], fun x h => h⟩
  have inv1 : checkInvariant (depKeys f) (checkStage1 f) :=
    checkInvariant_privateFold f (depKeys f) _ (checkStage0 f)
      (List.Nodup.sublist (get_private_package_names_sublist f) hnd)
      (fun x hx => (get_private_package_names_sublist f).subset hx) inv0
  have inv2 : checkInvariant (depKeys f) (checkStage2 ov f) :=
    foldl_preserve _ _ _
      (fun st x _ h => checkInvariant_guardedReasonStep f _ (depKeys f) st x h) inv1
  have inv3 : checkInvariant (depKeys f) (checkStage3 ov f) :=
    foldl_preserve _ _ _
      (fun st x _ h => checkInvariant_guardedReasonStep f _ (depKeys f) st x h) inv2
  exact foldl_preserve _ _ _
    (fun st x _ h => checkInvariant_guardedReasonStep f _ (depKeys f) st x h) inv3

theorem fallbackFold_ids (f : DbtPackageFile) :
    ∀ (l : List String) (acc : List PackageVersionUpgradeResult),
      (∀ x ∈ l, x ∈ depKeys f) →
      (l.foldl (fallbackStep f) acc).map (fun r => r.id) = acc.map (fun r => r.id) ++ l := by
  intro l
  induction l with
  | nil => intro acc _; simp
  | cons x xs ih =>
    intro acc hsub
    simp only [List.foldl_cons]
    obtain ⟨p, hp⟩ := assocFind_of_mem_keys f.package_dependencies x (hsub x (List.mem_cons_self _ _))
    obtain ⟨r, hr, he⟩ : ∃ r, r.id = x ∧ fallbackStep f acc x = acc ++ [r] := by
      unfold fallbackStep
      rw [hp]
      exact ⟨_, rfl, rfl⟩
    rw [he, ih (acc ++ [r]) (fun y hy => hsub y (List.mem_cons_of_mem _ hy))]
    simp [hr]

theorem check_ids_perm (ov : ManualOverrides) (f : DbtPackageFile)
    (hnd : (depKeys f).Nodup) :
    List.Perm ((check_for_package_upgrades ov f).map (fun r => r.id)) (depKeys f) := by
  have inv4 := checkInvariant_stage4 ov f hnd
  unfold check_for_package_upgrades
  by_cases h0 : (checkStage4 ov f).packagesToCheck.length = 0
  · rw [if_pos h0]
    have he : (checkStage4 ov f).packagesToCheck = [] := List.length_eq_zero.mp h0
    have hp := inv4.1
    rw [he] at hp
    simpa using hp
  · rw [if_neg h0]
    have inv5 : checkInvariant (depKeys f) (checkStage5 ov f) :=
      foldl_preserve _ _ _
        (fun st x _ h => checkInvariant_perVersionStep (depKeys f) st x h) inv4
    by_cases h5 : 0 < (checkStage5 ov f).packagesToCheck.length
    · rw [if_pos h5]
      rw [fallbackFold_ids f _ _ (fun x hx => inv5.2 hx)]
      exact inv5.1
    · rw [if_neg h5]
      have he : (checkStage5 ov f).packagesToCheck = [] := by
        cases hc : (checkStage5 ov f).packagesToCheck with
        | nil => rfl
        | cons a t =>
          exfalso
          apply h5
          rw [hc]
          simp
      have hp := inv5.1
      rw [he] at hp
      simpa using hp

theorem mem_toCheck_privateFold (f : DbtPackageFile) (pid : String) :
    ∀ (l : List String) (st : UpgradeCheckState), pid ∉ l → pid ∈ st.packagesToCheck →
      pid ∈ (l.foldl (privatePackageStep f) st).packagesToCheck := by
  intro l
  induction l with
  | nil => intro st _ h; exact h
  | cons x xs ih =>
    intro st hnl hmem
    simp only [List.foldl_cons]
    have hne : pid ≠ x := fun he => hnl (he ▸ List.mem_cons_self _ _)
    apply ih _ (fun h => hnl (List.mem_cons_of_mem _ h))
    unfold privatePackageStep
    cases hlk : assocFind f.package_dependencies x with
    | none => exact hmem
    | some p => exact (List.mem_erase_of_ne hne).mpr hmem

theorem mem_toCheck_guardedFold (f : DbtPackageFile) (reason : PackageVersionUpgradeType) (pid : String) :
    ∀ (l : List String) (st : UpgradeCheckState), pid ∉ l → pid ∈ st.packagesToCheck →
      pid ∈ (l.foldl (guardedReasonStep f reason) st).packagesToCheck := by
  intro l
  induction l with
  | nil => intro st _ h; exact h
  | cons x xs ih =>
    intro st hnl hmem
    simp only [List.foldl_cons]
    have hne : pid ≠ x := fun he => hnl (he ▸ List.mem_cons_self _ _)
    apply ih _ (fun h => hnl (List.mem_cons_of_mem _ h))
    unfold guardedReasonStep
    by_cases hx : x ∈ st.packagesToCheck
    · rw [if_pos hx]
      cases hlk : assocFind f.package_dependencies x with
      | none => exact hmem
      | some p => exact (List.mem_erase_of_ne hne).mpr hmem
    · rw [if_neg hx]; exact hmem

theorem mem_toCheck_perVersionFold (pid : String) :
    ∀ (l : List (String × DbtPackage)) (st : UpgradeCheckState),
      pid ∉ l.map Prod.fst → pid ∈ st.packagesToCheck →
      pid ∈ (l.foldl perVersionStep st).packagesToCheck := by
  intro l
  induction l with
  | nil => intro st _ h; exact h
  | cons x xs ih =>
    intro st hnl hmem
    simp only [List.foldl_cons]
    simp only [List.map_cons, List.mem_cons] at hnl
    push_neg at hnl
    have hne : pid ≠ x.1 := hnl.1
    apply ih _ (by simpa using hnl.2)
    unfold perVersionStep
    by_cases hx : x.1 ∈ st.packagesToCheck
    · rw [if_pos hx]
      cases hin : x.2.find_fusion_compatible_versions_in_requested_range with
      | cons v t => exact (List.mem_erase_of_ne hne).mpr hmem
      | nil =>
        cases hout : x.2.find_fusion_compatible_versions_outside_requested_range with
        | cons v t => exact (List.mem_erase_of_ne hne).mpr hmem
        | nil => exact hmem
    · rw [if_neg hx]; exact hmem

theorem mem_results_perVersionStep (r : PackageVersionUpgradeResult) (st : UpgradeCheckState)
    (pr : String × DbtPackage) (h : r ∈ st.results) : r ∈ (perVersionStep st pr).results := by
  unfold perVersionStep
  by_cases hx : pr.1 ∈ st.packagesToCheck
  · rw [if_pos hx]
    cases hin : pr.2.find_fusion_compatible_versions_in_requested_range with
    | cons v t => exact List.mem_append_left _ h
    | nil =>
      cases hout : pr.2.find_fusion_compatible_versions_outside_requested_range with
      | cons v t => exact List.mem_append_left _ h
      | nil => exact h
  · rw [if_neg hx]; exact h

theorem mem_results_perVersionFold (r : PackageVersionUpgradeResult)
    (l : List (String × DbtPackage)) (st : UpgradeCheckState) (h : r ∈ st.results) :
    r ∈ (l.foldl perVersionStep st).results :=
  foldl_preserve l perVersionStep st (fun st' x _ h' => mem_results_perVersionStep r st' x h') h

theorem mem_results_fallbackFold (f : DbtPackageFile) (r : PackageVersionUpgradeResult)
    (l : List String) (acc : List PackageVersionUpgradeResult) (h : r ∈ acc) :
    r ∈ l.foldl (fallbackStep f) acc := by
  apply foldl_preserve l (fallbackStep f) acc ?_ h
  intro acc' x _ h'
  unfold fallbackStep
  cases hlk : assocFind f.package_dependencies x with
  | none => exact h'
  | some p => exact List.mem_append_left _ h'

theorem of_mem_get_private_package_names (f : DbtPackageFile) (pid : String)
    (h : pid ∈ f.get_private_package_names) :
    ∃ q, (pid, q) ∈ f.package_dependencies ∧ q.is_public_package = false := by
  unfold DbtPackageFile.get_private_package_names at h
  obtain ⟨pr, hpr, he⟩ := List.mem_map.mp h
  obtain ⟨hmem, hq⟩ := List.mem_filter.mp hpr
  refine ⟨pr.2, ?_, ?_⟩
  · rw [← he]; exact hmem
  · simpa using hq

theorem of_mem_get_package_fusion_compatibility (ov : ManualOverrides) (f : DbtPackageFile)
    (st : FusionCompatibilityState) (pid : String)
    (h : pid ∈ f.get_package_fusion_compatibility ov st) :
    ∃ q, (pid, q) ∈ f.package_dependencies ∧ q.get_fusion_compatibility_state ov = st := by
  unfold DbtPackageFile.get_package_fusion_compatibility at h
  obtain ⟨pr, hpr, he⟩ := List.mem_map.mp h
  obtain ⟨hmem, hq⟩ := List.mem_filter.mp hpr
  refine ⟨pr.2, ?_, ?_⟩
  · rw [← he]; exact hmem
  · simpa using hq

theorem find_in_range_nonempty_hasElems (p : DbtPackage)
    (h : p.find_fusion_compatible_versions_in_requested_range ≠ []) :
    optListHasElems p.fusion_compatible_versions = true := by
  unfold DbtPackage.find_fusion_compatible_versions_in_requested_range at h
  cases hc : p.fusion_compatible_versions with
  | none => rw [hc] at h; exact absurd rfl h
  | some vs =>
    rw [hc] at h
    by_cases hl : vs.length = 0
    · have hv : vs = [] := List.length_eq_zero.mp hl
      subst hv
      exact absurd rfl h
    · simp only [optListHasElems, decide_eq_true_eq]
      exact Nat.pos_of_ne_zero hl

theorem get_fusion_compatibility_state_with_compatible (ov : ManualOverrides) (p : DbtPackage)
    (hpub : p.is_public_package = true) (hc : optListHasElems p.fusion_compatible_versions = true) :
    p.get_fusion_compatibility_state ov ≠ .DBT_VERSION_RANGE_EXCLUDES_2_0 ∧
    p.get_fusion_compatibility_state ov ≠ .NO_DBT_VERSION_RANGE := by
  unfold DbtPackage.get_fusion_compatibility_state
  rw [if_neg (by rw [hpub]; simp)]
  by_cases hd : p.package_id ∈ ov.EXPLICIT_DISALLOW_ALL_VERSIONS
  · rw [if_pos hd]; exact ⟨by decide, by decide⟩
  · rw [if_neg hd]
    by_cases ha : p.package_id ∈ ov.EXPLICIT_ALLOW_ALL_VERSIONS
    · rw [if_pos ha]; exact ⟨by decide, by decide⟩
    · rw [if_neg ha]
      by_cases hic : (p.is_installed_version_fusion_compatible ov = .DBT_VERSION_RANGE_INCLUDES_2_0
          ∨ p.is_installed_version_fusion_compatible ov = .EXPLICIT_ALLOW)
      · rw [if_pos hic]
        rcases hic with h | h <;> rw [h] <;> exact ⟨by decide, by decide⟩
      · rw [if_neg hic, if_pos hc]
        exact ⟨by decide, by decide⟩

/-- The six reason codes the decision engine can emit. -/
def emittedReasonCodes : List PackageVersionUpgradeType :=
  [.NO_UPGRADE_REQUIRED, .UPGRADE_AVAILABLE, .PUBLIC_PACKAGE_MISSING_FUSION_ELIGIBILITY,
   .PUBLIC_PACKAGE_NOT_COMPATIBLE_WITH_FUSION,
   .PUBLIC_PACKAGE_FUSION_COMPATIBLE_VERSION_EXCEEDS_PROJECT_CONFIG,
   .PRIVATE_PACKAGE_MISSING_REQUIRE_DBT_VERSION]

def resultsReasonsOk (l : List PackageVersionUpgradeResult) : Prop :=
  ∀ r ∈ l, r.version_reason ∈ emittedReasonCodes

theorem resultsReasonsOk_append (l : List PackageVersionUpgradeResult)
    (r : PackageVersionUpgradeResult) (h : resultsReasonsOk l)
    (hr : r.version_reason ∈ emittedReasonCodes) : resultsReasonsOk (l ++ [r]) := by
  intro x hx
  rcases List.mem_append.mp hx with h1 | h1
  · exact h x h1
  · rw [List.mem_singleton.mp h1]; exact hr

theorem resultsReasonsOk_privatePackageStep (f : DbtPackageFile) (st : UpgradeCheckState)
    (pid : String) (h : resultsReasonsOk st.results) :
    resultsReasonsOk (privatePackageStep f st pid).results := by
  unfold privatePackageStep
  cases hlk : assocFind f.package_dependencies pid with
  | none => exact h
  | some p => exact resultsReasonsOk_append _ _ h (by simp [emittedReasonCodes])

theorem resultsReasonsOk_guardedReasonStep (f : DbtPackageFile) (reason : PackageVersionUpgradeType)
    (hreason : reason ∈ emittedReasonCodes) (st : UpgradeCheckState) (pid : String)
    (h : resultsReasonsOk st.results) :
    resultsReasonsOk (guardedReasonStep f reason st pid).results := by
  unfold guardedReasonStep
  by_cases hmem : pid ∈ st.packagesToCheck
  · rw [if_pos hmem]
    cases hlk : assocFind f.package_dependencies pid with
    | none => exact h
    | some p => exact resultsReasonsOk_append _ _ h hreason
  · rw [if_neg hmem]; exact h

theorem resultsReasonsOk_perVersionStep (st : UpgradeCheckState) (pr : String × DbtPackage)
    (h : resultsReasonsOk st.results) : resultsReasonsOk (perVersionStep st pr).results := by
  unfold perVersionStep
  by_cases hmem : pr.1 ∈ st.packagesToCheck
  · rw [if_pos hmem]
    cases hin : pr.2.find_fusion_compatible_versions_in_requested_range with
    | cons v t => exact resultsReasonsOk_append _ _ h (by simp [emittedReasonCodes])
    | nil =>
      cases hout : pr.2.find_fusion_compatible_versions_outside_requested_range with
      | cons v t => exact resultsReasonsOk_append _ _ h (by simp [emittedReasonCodes])
      | nil => exact h
  · rw [if_neg hmem]; exact h

theorem resultsReasonsOk_fallbackStep (f : DbtPackageFile)
    (acc : List PackageVersionUpgradeResult) (pid : String) (h : resultsReasonsOk acc) :
    resultsReasonsOk (fallbackStep f acc pid) := by
  unfold fallbackStep
  cases hlk : assocFind f.package_dependencies pid with
  | none => exact h
  | some p => exact resultsReasonsOk_append _ _ h (by simp [emittedReasonCodes])

theorem resultsReasonsOk_stage5 (ov : ManualOverrides) (f : DbtPackageFile) :
    resultsReasonsOk (checkStage5 ov f).results := by
  have h0 : resultsReasonsOk (checkStage0 f).results := by
    intro r hr
    exact absurd hr (by simp [checkStage0])
  have h1 : resultsReasonsOk (checkStage1 f).results :=
    foldl_preserve (P := fun st => resultsReasonsOk st.results) _ _ _
      (fun st x _ h => resultsReasonsOk_privatePackageStep f st x h) h0
  have h2 : resultsReasonsOk (checkStage2 ov f).results :=
    foldl_preserve (P := fun st => resultsReasonsOk st.results) _ _ _
      (fun st x _ h => resultsReasonsOk_guardedReasonStep f _ (by decide) st x h) h1
  have h3 : resultsReasonsOk (checkStage3 ov f).results :=
    foldl_preserve (P := fun st => resultsReasonsOk st.results) _ _ _
      (fun st x _ h => resultsReasonsOk_guardedReasonStep f _ (by decide) st x h) h2
  have h4 : resultsReasonsOk (checkStage4 ov f).results :=
    foldl_preserve (P := fun st => resultsReasonsOk st.results) _ _ _
      (fun st x _ h => resultsReasonsOk_guardedReasonStep f _ (by decide) st x h) h3
  exact foldl_preserve (P := fun st => resultsReasonsOk st.results) _ _ _
    (fun st x _ h => resultsReasonsOk_perVersionStep st x h) h4

theorem resultsReasonsOk_check (ov : ManualOverrides) (f : DbtPackageFile) :
    resultsReasonsOk (check_for_package_upgrades ov f) := by
  unfold check_for_package_upgrades
  have h5 := resultsReasonsOk_stage5 ov f
  have h4 : resultsReasonsOk (checkStage4 ov f).results := by
    intro r hr
    exact h5 r (mem_results_perVersionFold r _ _ hr)
  by_cases h0 : (checkStage4 ov f).packagesToCheck.length = 0
  · rw [if_pos h0]; exact h4
  · rw [if_neg h0]
    by_cases hl : 0 < (checkStage5 ov f).packagesToCheck.length
    · rw [if_pos hl]
      exact foldl_preserve (P := resultsReasonsOk) _ _ _
        (fun acc x _ h => resultsReasonsOk_fallbackStep f acc x h) h5
    · rw [if_neg hl]; exact h5

theorem assocFind_eq_none {β : Type} : ∀ (l : List (String × β)) (k : String),
    k ∉ l.map Prod.fst → assocFind l k = none := by
  intro l
  induction l with
  | nil => intro k _; rfl
  | cons e t ih =>
    intro k hk
    rw [assocFind_cons]
    simp only [List.map_cons, List.mem_cons] at hk
    push_neg at hk
    rw [if_neg (by simp only [beq_iff_eq]; exact fun h => hk.1 h.symm)]
    exact ih k hk.2

theorem revLookup_foldl (n : String) :
    ∀ (l : List (String × DbtPackage)) (acc : List (String × String)),
      assocFind (l.foldl reverseLookupStep acc) n =
        (assocFind acc n).or ((l.find? (fun pr => pr.2.package_name == n)).map Prod.fst) := by
  intro l
  induction l with
  | nil => intro acc; simp
  | cons x xs ih =>
    intro acc
    simp only [List.foldl_cons]
    rw [ih]
    by_cases hn : (x.2.package_name == n) = true
    · have he : x.2.package_name = n := by simpa using hn
      have hfind : ((x :: xs).find? (fun pr => pr.2.package_name == n)) = some x := by
        simp only [List.find?_cons, hn]
      rw [hfind]
      unfold reverseLookupStep
      by_cases hdup : x.2.package_name ∈ acc.map Prod.fst
      · rw [if_pos hdup]
        obtain ⟨v, hv⟩ := assocFind_of_mem_keys acc n (he ▸ hdup)
        rw [hv]
        rfl
      · rw [if_neg hdup]
        have hnone : assocFind acc n = none := assocFind_eq_none acc n (by rw [← he]; exact hdup)
        rw [assocFind_append, hnone, assocFind_cons, if_pos hn]
        rfl
    · have hf : (x.2.package_name == n) = false := by simpa using hn
      have hfind : ((x :: xs).find? (fun pr => pr.2.package_name == n))
          = xs.find? (fun pr => pr.2.package_name == n) := by
        simp only [List.find?_cons, hf]
      rw [hfind]
      unfold reverseLookupStep
      by_cases hdup : x.2.package_name ∈ acc.map Prod.fst
      · rw [if_pos hdup]
      · rw [if_neg hdup]
        rw [assocFind_append, assocFind_cons, if_neg (by simp [hf])]
        rw [assocFind_nil]
        simp

/-- The result record the per-version phase emits when an in-range candidate
exists. -/
def upgradeAvailableResult (pid : String) (p : DbtPackage) (w : Semver) : PackageVersionUpgradeResult :=
  { id := pid, public_package := true,
    installed_version := p.get_installed_package_version,
    version_reason := .UPGRADE_AVAILABLE,
    compatible_version := some w.to_version_string }

theorem perVersionStep_upgrade (st : UpgradeCheckState) (pr : String × DbtPackage)
    (hmem : pr.1 ∈ st.packagesToCheck) (w : Semver) (t : List Semver)
    (hwt : pr.2.find_fusion_compatible_versions_in_requested_range = w :: t) :
    perVersionStep st pr =
      ⟨st.packagesToCheck.erase pr.1, st.results ++ [upgradeAvailableResult pr.1 pr.2 w]⟩ := by
  unfold perVersionStep upgradeAvailableResult
  rw [if_pos hmem, hwt]

/-- C3: for every public package whose installed version is not already
classified Fusion-compatible and whose set of Fusion-compatible in-range
candidate versions is non-empty, `check_for_package_upgrades` emits a result
for that package with reason `UPGRADE_AVAILABLE` whose `compatible_version` is
the highest in-range candidate (the head of the descending-sorted candidate
list, a maximum of the in-range candidate set). -/
theorem c3_upgrade_available_highest_in_range (ov : ManualOverrides) (f : DbtPackageFile)
    (pid : String) (p : DbtPackage)
    (hnd : (depKeys f).Nodup)
    (hmem : (pid, p) ∈ f.package_dependencies)
    (hpub : p.is_public_package = true)
    (hnc : pid ∉ f.get_installed_version_fusion_compatible ov)
    (hin : p.find_fusion_compatible_versions_in_requested_range ≠ []) :
    ∃ r ∈ check_for_package_upgrades ov f,
      r.id = pid ∧ r.version_reason = .UPGRADE_AVAILABLE ∧
      ∃ w t, p.find_fusion_compatible_versions_in_requested_range = w :: t ∧
        r.compatible_version = some w.to_version_string ∧
        w ∈ inRangeCandidates p ∧ ∀ v ∈ inRangeCandidates p, v ≤ w := by
  have hkey : pid ∈ depKeys f := by
    unfold depKeys
    exact List.mem_map_of_mem Prod.fst hmem
  have hnp : pid ∉ f.get_private_package_names := by
    intro hp
    obtain ⟨q, hq, hqpub⟩ := of_mem_get_private_package_names f pid hp
    have hqp : q = p := nodup_keys_assoc_unique f.package_dependencies pid q p hnd hq hmem
    rw [hqp] at hqpub
    simp [hpub] at hqpub
  have hcompat : optListHasElems p.fusion_compatible_versions = true :=
    find_in_range_nonempty_hasElems p hin
  have hstate := get_fusion_compatibility_state_with_compatible ov p hpub hcompat
  have hnb3 : pid ∉ f.get_package_fusion_compatibility ov .DBT_VERSION_RANGE_EXCLUDES_2_0 := by
    intro hp
    obtain ⟨q, hq, hqs⟩ := of_mem_get_package_fusion_compatibility ov f _ pid hp
    have hqp : q = p := nodup_keys_assoc_unique f.package_dependencies pid q p hnd hq hmem
    rw [hqp] at hqs
    exact hstate.1 hqs
  have hnb4 : pid ∉ f.get_package_fusion_compatibility ov .NO_DBT_VERSION_RANGE := by
    intro hp
    obtain ⟨q, hq, hqs⟩ := of_mem_get_package_fusion_compatibility ov f _ pid hp
    have hqp : q = p := nodup_keys_assoc_unique f.package_dependencies pid q p hnd hq hmem
    rw [hqp] at hqs
    exact hstate.2 hqs
  have h1 : pid ∈ (checkStage1 f).packagesToCheck := by
    unfold checkStage1
    exact mem_toCheck_privateFold f pid _ _ hnp hkey
  have h2 : pid ∈ (checkStage2 ov f).packagesToCheck := by
    unfold checkStage2
    exact mem_toCheck_guardedFold f _ pid _ _ hnc h1
  have h3 : pid ∈ (checkStage3 ov f).packagesToCheck := by
    unfold checkStage3
    exact mem_toCheck_guardedFold f _ pid _ _ hnb3 h2
  have h4 : pid ∈ (checkStage4 ov f).packagesToCheck := by
    unfold checkStage4
    exact mem_toCheck_guardedFold f _ pid _ _ hnb4 h3
  have h0 : ¬ (checkStage4 ov f).packagesToCheck.length = 0 := by
    intro hz
    rw [List.length_eq_zero.mp hz] at h4
    exact List.not_mem_nil pid h4
  obtain ⟨l1, l2, hsplit⟩ := List.append_of_mem hmem
  have hnd' : (l1.map Prod.fst ++ pid :: l2.map Prod.fst).Nodup := by
    have h := hnd
    unfold depKeys at h
    rw [hsplit] at h
    simpa using h
  have hl1 : pid ∉ l1.map Prod.fst := by
    have hd := (List.nodup_append.mp hnd').2.2
    exact fun hx => hd hx (List.mem_cons_self _ _)
  have hstep_mem : pid ∈ (l1.foldl perVersionStep (checkStage4 ov f)).packagesToCheck :=
    mem_toCheck_perVersionFold pid l1 _ hl1 h4
  obtain ⟨w, t, hwt⟩ : ∃ w t, p.find_fusion_compatible_versions_in_requested_range = w :: t := by
    cases hq : p.find_fusion_compatible_versions_in_requested_range with
    | nil => exact absurd hq hin
    | cons w t => exact ⟨w, t, rfl⟩
  have hr5 : upgradeAvailableResult pid p w ∈ (checkStage5 ov f).results := by
    unfold checkStage5
    rw [hsplit, List.foldl_append, List.foldl_cons]
    apply mem_results_perVersionFold
    rw [perVersionStep_upgrade _ _ hstep_mem w t hwt]
    exact List.mem_append_right _ (List.mem_singleton.mpr rfl)
  have hfinal : upgradeAvailableResult pid p w ∈ check_for_package_upgrades ov f := by
    unfold check_for_package_upgrades
    rw [if_neg h0]
    by_cases h5 : 0 < (checkStage5 ov f).packagesToCheck.length
    · rw [if_pos h5]
      exact mem_results_fallbackFold f _ _ _ hr5
    · rw [if_neg h5]
      exact hr5
  have hsort : sortVersionsDescending (inRangeCandidates p) = w :: t := by
    rw [← find_in_range_eq_sort]
    exact hwt
  have hmax := sortVersionsDescending_head_max (inRangeCandidates p) w t hsort
  exact ⟨upgradeAvailableResult pid p w, hfinal, rfl, rfl, w, t, hwt, rfl, hmax.1, hmax.2⟩

/-- C1: for every dependency file whose declared package ids are unique (they
are Python dict keys), `check_for_package_upgrades` returns exactly one result
per declared dependency: as many results as declared dependencies, with
pairwise-distinct ids that are a permutation of the declared package ids — no
package omitted, none classified twice. -/
theorem c1_check_totality (ov : ManualOverrides) (f : DbtPackageFile)
    (hnd : (depKeys f).Nodup) :
    (check_for_package_upgrades ov f).length = f.package_dependencies.length ∧
    ((check_for_package_upgrades ov f).map (fun r => r.id)).Nodup ∧
    List.Perm ((check_for_package_upgrades ov f).map (fun r => r.id)) (depKeys f) := by
  have hp := check_ids_perm ov f hnd
  refine ⟨?_, (hp.nodup_iff).mpr hnd, hp⟩
  have hl := hp.length_eq
  rw [List.length_map] at hl
  rw [hl]
  unfold depKeys
  exact List.length_map _ _

def c1File : DbtPackageFile :=
  { package_file_name := "packages.yml",
    package_dependencies := [
      ("dbt-labs/dbt_utils", { package_name := "dbt_utils", package_id := "dbt-labs/dbt_utils" }),
      ("org/local_pkg", { package_name := "local_pkg", package_id := "org/local_pkg", isLocal := true })] }

theorem c1_witness :
    (depKeys c1File).Nodup ∧
    ((check_for_package_upgrades {} c1File).length = c1File.package_dependencies.length ∧
     ((check_for_package_upgrades {} c1File).map (fun r => r.id)).Nodup ∧
     List.Perm ((check_for_package_upgrades {} c1File).map (fun r => r.id)) (depKeys c1File)) :=
  ⟨by decide, c1_check_totality {} c1File (by decide)⟩

/-- C8: every result emitted by `check_for_package_upgrades` carries one of the
six emitted reason codes; the `UNKNOWN` member of the enumeration is never
emitted. -/
theorem c8_reason_codes (ov : ManualOverrides) (f : DbtPackageFile) :
    ∀ r ∈ check_for_package_upgrades ov f,
      r.version_reason ∈ emittedReasonCodes ∧
      r.version_reason ≠ PackageVersionUpgradeType.UNKNOWN := by
  intro r hr
  have hok := resultsReasonsOk_check ov f r hr
  refine ⟨hok, ?_⟩
  intro he
  rw [he] at hok
  exact absurd hok (by decide)

def c8File : DbtPackageFile :=
  { package_file_name := "packages.yml",
    package_dependencies := [
      ("org/private_pkg", { package_name := "private_pkg", package_id := "org/private_pkg", isLocal := true })] }

def c8Result : PackageVersionUpgradeResult :=
  { id := "org/private_pkg", public_package := false, installed_version := "unknown",
    version_reason := .PRIVATE_PACKAGE_MISSING_REQUIRE_DBT_VERSION }

theorem c8_witness :
    c8Result.version_reason ∈ emittedReasonCodes ∧
    c8Result.version_reason ≠ PackageVersionUpgradeType.UNKNOWN :=
  c8_reason_codes {} c8File c8Result (by decide)

def c3Package : DbtPackage :=
  { package_name := "pkg", package_id := "org/pkg",
    project_config_version_range :=
      { start := some ⟨⟨1, 0, 0, none⟩, true⟩, stop := some ⟨⟨1, 5, 0, none⟩, false⟩ },
    fusion_compatible_versions := some [⟨1, 2, 0, none⟩, ⟨1, 6, 0, none⟩] }

def c3File : DbtPackageFile :=
  { package_file_name := "packages.yml",
    package_dependencies := [("org/pkg", c3Package)] }

theorem c3_witness :
    ∃ r ∈ check_for_package_upgrades {} c3File,
      r.id = "org/pkg" ∧ r.version_reason = .UPGRADE_AVAILABLE ∧
      ∃ w t, c3Package.find_fusion_compatible_versions_in_requested_range = w :: t ∧
        r.compatible_version = some w.to_version_string ∧
        w ∈ inRangeCandidates c3Package ∧ ∀ v ∈ inRangeCandidates c3Package, v ≤ w :=
  c3_upgrade_available_highest_in_range {} c3File "org/pkg" c3Package
    (by decide) (by decide) (by decide) (by decide) (by decide)

def c4DupPackage : DbtPackage :=
  { package_name := "pkg", package_id := "org/pkg",
    fusion_compatible_versions := some [⟨1, 2, 0, none⟩, ⟨1, 2, 0, none⟩] }

/-- C4 counterexample: with a duplicated entry in `fusion_compatible_versions`
(the dataclass field is a plain list), the returned list repeats the version
and is not strictly descending. -/
theorem c4_counterexample :
    ¬ (c4DupPackage.find_fusion_compatible_versions_in_requested_range).Pairwise
        (fun a b : Semver => b < a) := by
  have he : c4DupPackage.find_fusion_compatible_versions_in_requested_range
      = [⟨1, 2, 0, none⟩, ⟨1, 2, 0, none⟩] := by decide
  rw [he]
  intro h
  have hlt := (List.pairwise_cons.mp h).1 ⟨1, 2, 0, none⟩ (List.mem_cons_self _ _)
  exact lt_irrefl _ hlt

/-- C4 (amended): `find_fusion_compatible_versions_in_requested_range` is
sorted descending (weakly; strictly whenever `fusion_compatible_versions` has
no duplicates), and when non-empty its first element is a maximum of the set of
Fusion-compatible versions satisfying the declared range. -/
theorem c4_find_in_range_sorted_descending (p : DbtPackage) :
    (p.find_fusion_compatible_versions_in_requested_range).Pairwise (fun a b => b ≤ a) ∧
    ((p.fusion_compatible_versions.getD []).Nodup →
      (p.find_fusion_compatible_versions_in_requested_range).Pairwise (fun a b => b < a)) ∧
    (∀ w t, p.find_fusion_compatible_versions_in_requested_range = w :: t →
      w ∈ inRangeCandidates p ∧ ∀ v ∈ inRangeCandidates p, v ≤ w) := by
  rw [find_in_range_eq_sort]
  refine ⟨?_, ?_, ?_⟩
  · exact (sortVersionsDescending_sorted _).imp (fun h => h)
  · intro hnd
    exact sortVersionsDescending_strict _ (hnd.filter _)
  · intro w t hwt
    exact sortVersionsDescending_head_max _ w t hwt

def c4Package : DbtPackage :=
  { package_name := "pkg", package_id := "org/pkg",
    project_config_version_range :=
      { start := some ⟨⟨1, 0, 0, none⟩, true⟩, stop := some ⟨⟨1, 5, 0, none⟩, false⟩ },
    fusion_compatible_versions := some [⟨1, 2, 0, none⟩, ⟨1, 6, 0, none⟩, ⟨1, 4, 0, none⟩] }

theorem c4_witness :
    ((c4Package.fusion_compatible_versions.getD []).Nodup ∧
      (c4Package.find_fusion_compatible_versions_in_requested_range).Pairwise
        (fun a b : Semver => b < a)) ∧
    (c4Package.find_fusion_compatible_versions_in_requested_range
        = ([⟨1, 4, 0, none⟩, ⟨1, 2, 0, none⟩] : List Semver) ∧
      ((⟨1, 4, 0, none⟩ : Semver) ∈ inRangeCandidates c4Package ∧
        ∀ v ∈ inRangeCandidates c4Package, v ≤ (⟨1, 4, 0, none⟩ : Semver))) :=
  ⟨⟨by decide, (c4_find_in_range_sorted_descending c4Package).2.1 (by decide)⟩,
   ⟨by decide, (c4_find_in_range_sorted_descending c4Package).2.2
     ⟨1, 4, 0, none⟩ [⟨1, 2, 0, none⟩] (by decide)⟩⟩

/-- C9: for a package with a present `fusion_compatible_versions` list, the
in-range and out-of-range query results partition it: together they are a
permutation of the list, and membership in each is membership in the list
together with the range test deciding the side. -/
theorem c9_in_out_partition (p : DbtPackage) (vs : List Semver)
    (h : p.fusion_compatible_versions = some vs) :
    List.Perm (p.find_fusion_compatible_versions_in_requested_range ++
        p.find_fusion_compatible_versions_outside_requested_range) vs ∧
    (∀ v, v ∈ p.find_fusion_compatible_versions_in_requested_range ↔
      v ∈ vs ∧ versions_compatible v p.project_config_version_range.start
        p.project_config_version_range.stop = true) ∧
    (∀ v, v ∈ p.find_fusion_compatible_versions_outside_requested_range ↔
      v ∈ vs ∧ versions_compatible v p.project_config_version_range.start
        p.project_config_version_range.stop = false) := by
  rw [find_in_range_eq_sort, find_out_range_eq_sort]
  refine ⟨?_, ?_, ?_⟩
  · refine ((sortVersionsDescending_perm _).append (sortVersionsDescending_perm _)).trans ?_
    unfold inRangeCandidates outOfRangeCandidates
    rw [h]
    simp only [Option.getD_some]
    exact List.filter_append_perm _ vs
  · intro v
    rw [(sortVersionsDescending_perm _).mem_iff]
    unfold inRangeCandidates
    rw [h]
    simp [List.mem_filter]
  · intro v
    rw [(sortVersionsDescending_perm _).mem_iff]
    unfold outOfRangeCandidates
    rw [h]
    simp [List.mem_filter, Bool.not_eq_true']

def c9Package : DbtPackage :=
  { package_name := "pkg", package_id := "org/pkg",
    project_config_version_range :=
      { start := some ⟨⟨1, 0, 0, none⟩, true⟩, stop := some ⟨⟨1, 5, 0, none⟩, false⟩ },
    fusion_compatible_versions := some [⟨1, 2, 0, none⟩, ⟨1, 6, 0, none⟩] }

theorem c9_witness :
    List.Perm (c9Package.find_fusion_compatible_versions_in_requested_range ++
        c9Package.find_fusion_compatible_versions_outside_requested_range)
      [⟨1, 2, 0, none⟩, ⟨1, 6, 0, none⟩] ∧
    (∀ v, v ∈ c9Package.find_fusion_compatible_versions_in_requested_range ↔
      v ∈ ([⟨1, 2, 0, none⟩, ⟨1, 6, 0, none⟩] : List Semver) ∧
        versions_compatible v c9Package.project_config_version_range.start
          c9Package.project_config_version_range.stop = true) ∧
    (∀ v, v ∈ c9Package.find_fusion_compatible_versions_outside_requested_range ↔
      v ∈ ([⟨1, 2, 0, none⟩, ⟨1, 6, 0, none⟩] : List Semver) ∧
        versions_compatible v c9Package.project_config_version_range.start
          c9Package.project_config_version_range.stop = false) :=
  c9_in_out_partition c9Package [⟨1, 2, 0, none⟩, ⟨1, 6, 0, none⟩] rfl

def c2Overrides : ManualOverrides :=
  { EXPLICIT_ALLOW_ALL_VERSIONS := ["org/localpkg"] }

def c2LocalPackage : DbtPackage :=
  { package_name := "localpkg", package_id := "org/localpkg", isLocal := true }

/-- C2 counterexample: a package declared via a local path whose id is in the
explicit-allow override set classifies as `UNKNOWN`, not `EXPLICIT_ALLOW` — in
`get_fusion_compatibility_state` the not-a-public-package check precedes the
override checks, contrary to the stated precedence order. -/
theorem c2_counterexample :
    c2LocalPackage.package_id ∈ c2Overrides.EXPLICIT_ALLOW_ALL_VERSIONS ∧
    c2LocalPackage.is_public_package = false ∧
    c2LocalPackage.get_fusion_compatibility_state c2Overrides = FusionCompatibilityState.UNKNOWN ∧
    c2LocalPackage.get_fusion_compatibility_state c2Overrides ≠ FusionCompatibilityState.EXPLICIT_ALLOW := by
  decide

/-- C2 (amended): in `get_fusion_compatibility_state` the public-package check
comes first — a non-public package yields `UNKNOWN` even when its id is in an
override set; for a public package the overrides are absolute regardless of
all other evidence, disallow checked before allow. -/
theorem c2_override_precedence (ov : ManualOverrides) (p : DbtPackage) :
    (p.is_public_package = false → p.get_fusion_compatibility_state ov = FusionCompatibilityState.UNKNOWN) ∧
    (p.is_public_package = true → p.package_id ∈ ov.EXPLICIT_DISALLOW_ALL_VERSIONS →
      p.get_fusion_compatibility_state ov = FusionCompatibilityState.EXPLICIT_DISALLOW) ∧
    (p.is_public_package = true → p.package_id ∉ ov.EXPLICIT_DISALLOW_ALL_VERSIONS →
      p.package_id ∈ ov.EXPLICIT_ALLOW_ALL_VERSIONS →
      p.get_fusion_compatibility_state ov = FusionCompatibilityState.EXPLICIT_ALLOW) := by
  unfold DbtPackage.get_fusion_compatibility_state
  refine ⟨?_, ?_, ?_⟩
  · intro h
    rw [if_pos h]
  · intro hpub hd
    rw [if_neg (by rw [hpub]; simp), if_pos hd]
  · intro hpub hnd ha
    rw [if_neg (by rw [hpub]; simp), if_neg hnd, if_pos ha]

def c2PubOverrides : ManualOverrides :=
  { EXPLICIT_ALLOW_ALL_VERSIONS := ["org/hubpkg"] }

def c2PublicPackage : DbtPackage :=
  { package_name := "hubpkg", package_id := "org/hubpkg" }

theorem c2_witness :
    c2PublicPackage.get_fusion_compatibility_state c2PubOverrides = FusionCompatibilityState.EXPLICIT_ALLOW :=
  (c2_override_precedence c2PubOverrides c2PublicPackage).2.2 (by decide) (by decide) (by decide)

def c5PackageA : DbtPackage := { package_name := "pkg", package_id := "acme/pkg" }

def c5PackageB : DbtPackage := { package_name := "pkg", package_id := "zeta/pkg" }

def c5File : DbtPackageFile :=
  { package_file_name := "packages.yml",
    package_dependencies := [("acme/pkg", c5PackageA), ("zeta/pkg", c5PackageB)] }

/-- C5 counterexample: with two dependencies sharing the bare name `pkg`, the
reverse lookup binds the name to the identity registered FIRST, not to the one
processed last as the claim states. -/
theorem c5_counterexample :
    assocFind (c5File.get_reverse_lookup_by_package_name) "pkg" = some "acme/pkg" ∧
    assocFind (c5File.get_reverse_lookup_by_package_name) "pkg" ≠ some "zeta/pkg" := by
  decide

/-- C5 (amended): `get_reverse_lookup_by_package_name` always completes (the
duplicate branch only logs), and binds every name first-write-wins: each name
maps to the identity of the first declared dependency carrying it. -/
theorem c5_reverse_lookup_first_wins (f : DbtPackageFile) (n : String) :
    assocFind (f.get_reverse_lookup_by_package_name) n =
      (f.package_dependencies.find? (fun pr => pr.2.package_name == n)).map Prod.fst := by
  unfold DbtPackageFile.get_reverse_lookup_by_package_name
  rw [revLookup_foldl n f.package_dependencies []]
  rfl

def c6Overrides : ManualOverrides :=
  { EXPLICIT_ALLOW_ALL_VERSIONS := ["org/both"],
    EXPLICIT_DISALLOW_ALL_VERSIONS := ["org/both"] }

def c6Package : DbtPackage := { package_name := "both", package_id := "org/both" }

/-- C6: for a package whose id is in both override sets, the disallow override
takes precedence over the allow override in both
`is_installed_version_fusion_compatible` and (for a public package)
`get_fusion_compatibility_state`. -/
theorem c6_disallow_wins (ov : ManualOverrides) (p : DbtPackage)
    (hd : p.package_id ∈ ov.EXPLICIT_DISALLOW_ALL_VERSIONS)
    (ha : p.package_id ∈ ov.EXPLICIT_ALLOW_ALL_VERSIONS)
    (hpub : p.is_public_package = true) :
    p.is_installed_version_fusion_compatible ov = FusionCompatibilityState.EXPLICIT_DISALLOW ∧
    p.get_fusion_compatibility_state ov = FusionCompatibilityState.EXPLICIT_DISALLOW := by
  constructor
  · unfold DbtPackage.is_installed_version_fusion_compatible
    rw [if_pos hd]
  · unfold DbtPackage.get_fusion_compatibility_state
    rw [if_neg (by rw [hpub]; simp), if_pos hd]

theorem c6_witness :
    c6Package.is_installed_version_fusion_compatible c6Overrides = FusionCompatibilityState.EXPLICIT_DISALLOW ∧
    c6Package.get_fusion_compatibility_state c6Overrides = FusionCompatibilityState.EXPLICIT_DISALLOW :=
  c6_disallow_wins c6Overrides c6Package (by decide) (by decide) (by decide)

/-- C7: `package_final_version` returns the upgraded version exactly when the
reason is `UPGRADE_AVAILABLE` and `upgraded_version` is set and non-empty; in
every other case it returns the installed version string. -/
theorem c7_package_final_version (r : PackageVersionUpgradeResult) :
    r.package_final_version =
      (match r.upgraded_version with
       | some s =>
         if r.version_reason = PackageVersionUpgradeType.UPGRADE_AVAILABLE ∧ s ≠ "" then s
         else r.installed_version
       | none => r.installed_version) := by
  obtain ⟨i, pb, iv, vr, uv, cv⟩ := r
  cases uv with
  | none =>
    simp [PackageVersionUpgradeResult.package_final_version,
      PackageVersionUpgradeResult.package_should_upgrade, strOptionTruthy]
  | some s =>
    by_cases hr : vr = PackageVersionUpgradeType.UPGRADE_AVAILABLE
    · by_cases hs : s = ""
      · simp [PackageVersionUpgradeResult.package_final_version,
          PackageVersionUpgradeResult.package_should_upgrade, strOptionTruthy, hr, hs]
      · simp [PackageVersionUpgradeResult.package_final_version,
          PackageVersionUpgradeResult.package_should_upgrade, strOptionTruthy, hr, hs]
    · simp [PackageVersionUpgradeResult.package_final_version,
        PackageVersionUpgradeResult.package_should_upgrade, strOptionTruthy, hr]

def c10Package : DbtPackage := { package_name := "dup", package_id := "org/dup" }

def c10NewPackage : DbtPackage := { package_name := "dup2", package_id := "org/dup", git := true }

def c10File : DbtPackageFile :=
  { package_file_name := "packages.yml",
    package_dependencies := [("org/dup", c10Package)] }

/-- C10: adding a dependency under an already-registered package id leaves the
dependency map completely unchanged — the first registration wins and the new
package is discarded. -/
theorem c10_add_existing_noop (f : DbtPackageFile) (package_id : String) (package : DbtPackage)
    (h : package_id ∈ f.package_dependencies.map Prod.fst) :
    f.add_package_dependency package_id package = f := by
  unfold DbtPackageFile.add_package_dependency
  rw [if_pos h]

theorem c10_witness : c10File.add_package_dependency "org/dup" c10NewPackage = c10File :=
  c10_add_existing_noop c10File "org/dup" c10NewPackage (by decide)
